import Mathlib

/-!
Shallow embedding of `src/static/app.js` (Simply Invest).

JS numbers are modelled as exact rationals (`ℚ`); `NaN`-producing inputs
(`isNaN(age)`, `parseFloat(amount)` on a non-number) are modelled with
`Option ℚ`, `none` standing for `NaN`.  `Math.random()` draws are passed in
explicitly as parameters (one `ℚ` in `[0,1)` per draw).  The three
localStorage entries (`users`, `stockPrices`, `currentUser`) form an
`AppState` record, and every operation takes and returns the state it reads
and writes.  `parseFloat(x.toFixed(2))` is modelled as exact rounding to two
decimal places, half towards `+∞` (the ECMAScript `toFixed` tie rule: of the
two nearest candidates, pick the larger).  The SHA-256 `hashPassword` is kept
abstract: `registerUser`/`loginUser` are parameterised by an arbitrary
`hash : String → String`.
-/

namespace SimplyInvest

/-- `parseFloat(x.toFixed(2))`: round to two decimal places
(ties towards `+∞`, matching ECMAScript `toFixed`, which picks the larger
of two equally near candidates). -/
def round2 (x : ℚ) : ℚ := (⌊100 * x + 1 / 2⌋ : ℤ) / 100

/-- One element of a user's `portfolio` array (created in `investCoins`). -/
structure Investment where
  symbol : String
  quantity : ℚ
  priceAtPurchase : ℚ
  investedAmount : ℚ
deriving DecidableEq, Repr

/-- One element of the `users` array (created in `registerUser`).
`age = none` models `NaN`. -/
structure User where
  username : String
  age : Option ℚ
  passwordHash : String
  coins : ℚ
  portfolio : List Investment
deriving DecidableEq, Repr

/-- The `stockPrices` localStorage entry: a JSON object mapping symbols to
numbers; `none` models an absent key. -/
def Prices : Type := String → Option ℚ

/-- The three persisted localStorage entries: `users`, `stockPrices` and
`currentUser` (the session marker; `none` models an absent key). -/
structure AppState where
  users : List User
  stockPrices : Prices
  currentUser : Option String

/-- The fixed `base` table inside `getStockPrice`, with the `|| 100`
fallback for unknown symbols. -/
def basePrice (symbol : String) : ℚ :=
  if symbol = "AAPL" then 150
  else if symbol = "AMZN" then 3200
  else if symbol = "TSLA" then 700
  else if symbol = "GOOG" then 2800
  else if symbol = "NFLX" then 500
  else if symbol = "NVDA" then 450
  else if symbol = "MSFT" then 350
  else if symbol = "META" then 300
  else 100

/-- The price `getStockPrice`/`updateStockPrice` start from: the stored
price unless the entry is absent or `0` (the JS `!prices[symbol]` falsiness
test), in which case the base price. -/
def currentOrSeededPrice (symbol : String) (prices : Prices) : ℚ :=
  if (prices symbol).getD 0 = 0 then basePrice symbol else (prices symbol).getD 0

/-- `getStockPrice(symbol)`: returns the stored price, seeding (and
persisting) the base price when the entry is absent (or `0`, which JS
treats as missing). -/
def getStockPrice (symbol : String) (prices : Prices) : ℚ × Prices :=
  if (prices symbol).getD 0 = 0 then
    (basePrice symbol, fun t => if t = symbol then some (basePrice symbol) else prices t)
  else ((prices symbol).getD 0, prices)

/-- `updateStockPrice(symbol)` with the `Math.random()` draw `rand ∈ [0,1)`
passed explicitly.  The final `saveStockPrices(prices)` writes the object
parsed at entry with only `symbol` updated, so any interleaved seeding save
from `getStockPrice` is overwritten for that key and preserved nowhere
else; the net persisted table is the input table with `symbol ↦ final`. -/
def updateStockPrice (rand : ℚ) (symbol : String) (prices : Prices) : ℚ × Prices :=
  let price := currentOrSeededPrice symbol prices
  let variation := rand * (1 / 10) - 1 / 20
  let newPrice := price * (1 + variation)
  let clamped := if newPrice < 1 then 1 else newPrice
  let final := round2 clamped
  (final, fun t => if t = symbol then some final else prices t)

/-- JS `String.prototype.toLowerCase()` on the ASCII usernames this app
compares: lower-case every character. -/
def toLowerCase (s : String) : String := ⟨s.data.map Char.toLower⟩

/-- The `isNaN(age) || age < 13` test of `registerUser`. -/
def ageInvalid (age : Option ℚ) : Bool :=
  age.elim true (fun a => decide (a < 13))

/-- `registerUser(username, age, password)`, with the `hashPassword` digest
abstracted as `hash`.  Returns the success flag and the updated state. -/
def registerUser (hash : String → String) (username : String) (age : Option ℚ)
    (password : String) (st : AppState) : Bool × AppState :=
  if username = "" then (false, st)
  else if ageInvalid age then (false, st)
  else if (st.users.find? (fun u => toLowerCase u.username = toLowerCase username)).isSome then
    (false, st)
  else
    (true,
      { users := st.users ++ [⟨username, age, hash password, 100000, []⟩],
        stockPrices := st.stockPrices,
        currentUser := some username })

/-- `loginUser(username, password)`, with `hashPassword` abstracted as
`hash`.  Returns the success flag and the updated state. -/
def loginUser (hash : String → String) (username : String) (password : String)
    (st : AppState) : Bool × AppState :=
  match st.users.find? (fun u => toLowerCase u.username = toLowerCase username) with
  | none => (false, st)
  | some user =>
    if hash password ≠ user.passwordHash then (false, st)
    else (true, { st with currentUser := some user.username })

/-- `getCurrentUserObject()`: resolves the session marker to a stored user
record (`!username` is falsy for both an absent key and `""`). -/
def getCurrentUserObject (st : AppState) : Option User :=
  match st.currentUser with
  | none => none
  | some username =>
    if username = "" then none
    else st.users.find? (fun u => u.username = username)

/-- `updateUser(updatedUser)`: overwrites the first stored record with a
matching username in place; no-op when none matches. -/
def updateUser (updatedUser : User) (st : AppState) : AppState :=
  match st.users.findIdx? (fun u => u.username = updatedUser.username) with
  | some idx => { st with users := st.users.set idx updatedUser }
  | none => st

/-- `investCoins(symbol, amount)`; `amount = none` models a `parseFloat`
result of `NaN`.  Returns `some (price, quantity)` on success, `none` on
failure, together with the updated state. -/
def investCoins (symbol : String) (amount : Option ℚ) (st : AppState) :
    Option (ℚ × ℚ) × AppState :=
  match getCurrentUserObject st with
  | none => (none, st)
  | some user =>
    match amount with
    | none => (none, st)
    | some amt =>
      if amt ≤ 0 then (none, st)
      else if amt > user.coins then (none, st)
      else
        let pp := getStockPrice symbol st.stockPrices
        let quantity := amt / pp.1
        let user' : User :=
          { user with
            coins := round2 (user.coins - amt),
            portfolio := user.portfolio ++ [⟨symbol, quantity, pp.1, amt⟩] }
        (some (pp.1, quantity), updateUser user' { st with stockPrices := pp.2 })

/-- The body of `updatePortfolio`'s `map` over the portfolio: each holding
draws a fresh `Math.random()` (`rands i` for the `i`-th holding), threading
the coin balance and the shared price table sequentially left to right. -/
def updatePortfolioLoop (rands : ℕ → ℚ) (i : ℕ) (coins : ℚ) (prices : Prices) :
    List Investment → List Investment × ℚ × Prices
  | [] => ([], coins, prices)
  | inv :: rest =>
    let up := updateStockPrice (rands i) inv.symbol prices
    let pctChange := (up.1 - inv.priceAtPurchase) / inv.priceAtPurchase
    let profitLoss := inv.investedAmount * pctChange
    let coins' := round2 (coins + profitLoss)
    let inv' : Investment :=
      { inv with priceAtPurchase := up.1, investedAmount := inv.quantity * up.1 }
    let r := updatePortfolioLoop rands (i + 1) coins' up.2 rest
    (inv' :: r.1, r.2.1, r.2.2)

/-- `updatePortfolio()`: revalues every holding in sequence, then persists
the user record once. -/
def updatePortfolio (rands : ℕ → ℚ) (st : AppState) : Bool × AppState :=
  match getCurrentUserObject st with
  | none => (false, st)
  | some user =>
    let r := updatePortfolioLoop rands 0 user.coins st.stockPrices user.portfolio
    (true, updateUser { user with coins := r.2.1, portfolio := r.1 }
      { st with stockPrices := r.2.2 })

/-- The out-of-range placeholder for `List.getD`; never read on the
in-range path of `sellInvestment`. -/
def defaultInvestment : Investment := ⟨"", 0, 0, 0⟩

/-- `sellInvestment(index)` with the `Math.random()` draw of its
`updateStockPrice` call passed explicitly.  Returns `some value` on
success, `none` on failure, together with the updated state. -/
def sellInvestment (rand : ℚ) (index : ℤ) (st : AppState) : Option ℚ × AppState :=
  match getCurrentUserObject st with
  | none => (none, st)
  | some user =>
    if index < 0 ∨ (user.portfolio.length : ℤ) ≤ index then (none, st)
    else
      let inv := user.portfolio.getD index.toNat defaultInvestment
      let up := updateStockPrice rand inv.symbol st.stockPrices
      let value := inv.quantity * up.1
      let user' : User :=
        { user with
          coins := round2 (user.coins + value),
          portfolio := user.portfolio.eraseIdx index.toNat }
      (some value, updateUser user' { st with stockPrices := up.2 })

/-! ### Helper lemmas -/

theorem round2_nonneg {x : ℚ} (hx : 0 ≤ x) : 0 ≤ round2 x := by
  unfold round2
  have h : (0 : ℤ) ≤ ⌊100 * x + 1 / 2⌋ := Int.le_floor.mpr (by linarith)
  positivity

theorem round2_ge_one {x : ℚ} (hx : 1 ≤ x) : 1 ≤ round2 x := by
  unfold round2
  have h : (100 : ℤ) ≤ ⌊100 * x + 1 / 2⌋ :=
    Int.le_floor.mpr (by push_cast; linarith)
  rw [le_div_iff₀ (by norm_num)]
  exact_mod_cast h

theorem basePrice_pos (symbol : String) : 0 < basePrice symbol := by
  unfold basePrice
  repeat' split
  all_goals norm_num

theorem updateStockPrice_fst_ge_one (rand : ℚ) (symbol : String) (prices : Prices) :
    1 ≤ (updateStockPrice rand symbol prices).1 := by
  unfold updateStockPrice
  dsimp only
  apply round2_ge_one
  split
  · exact le_refl 1
  · linarith [not_lt.mp (by assumption :
      ¬ currentOrSeededPrice symbol prices * (1 + (rand * (1 / 10) - 1 / 20)) < 1)]

theorem getCurrentUserObject_eq_some {st : AppState} {user : User} :
    getCurrentUserObject st = some user ↔
      ∃ name, st.currentUser = some name ∧ ¬ name = "" ∧
        st.users.find? (fun u => u.username = name) = some user := by
  unfold getCurrentUserObject
  cases hm : st.currentUser with
  | none => simp
  | some name =>
    by_cases hname : name = ""
    · simp [hname]
    · simp [hname]

theorem getCurrentUserObject_mem {st : AppState} {user : User}
    (h : getCurrentUserObject st = some user) : user ∈ st.users := by
  obtain ⟨name, _, _, hfind⟩ := getCurrentUserObject_eq_some.mp h
  exact List.mem_of_find?_eq_some hfind

/-- Replacing, at the index `findIdx?` returns, an element satisfying the
predicate makes `find?` return the replacement. -/
theorem find?_set_of_find? (P : User → Bool) (u' : User) (hP : P u' = true) :
    ∀ (l : List User) (n : ℕ) (user : User), l.find? P = some user →
      ∃ j, l.findIdx? P n = some (n + j) ∧ (l.set j u').find? P = some u' := by
  intro l
  induction l with
  | nil => intro n user h; exact absurd h (by simp)
  | cons x xs ih =>
    intro n user h
    by_cases hx : P x = true
    · refine ⟨0, ?_, ?_⟩
      · rw [List.findIdx?_cons, if_pos hx]
        simp
      · rw [List.set]
        rw [List.find?_cons]
        simp [hP]
    · have hfx : P x = false := by simpa using hx
      rw [List.find?_cons] at h
      rw [hfx] at h
      obtain ⟨j, hj1, hj2⟩ := ih (n + 1) user h
      refine ⟨j + 1, ?_, ?_⟩
      · rw [List.findIdx?_cons, if_neg (by simp [hfx]), hj1]
        congr 1
        omega
      · rw [List.set]
        rw [List.find?_cons, hfx]
        exact hj2

/-- After `updateUser u'` on a state whose current user is `user` and where
`u'` carries the same username, the current user resolves to `u'`.
The state being updated may carry a different price table. -/
theorem getCurrentUserObject_updateUser {st : AppState} {user u' : User}
    (prices' : Prices)
    (h : getCurrentUserObject st = some user) (h2 : u'.username = user.username) :
    getCurrentUserObject
      (updateUser u' { st with stockPrices := prices' }) = some u' := by
  obtain ⟨name, hm, hname, hfind⟩ := getCurrentUserObject_eq_some.mp h
  have huser : user.username = name := by simpa using List.find?_some hfind
  have hu' : u'.username = name := h2.trans huser
  have hpred : (fun u : User => decide (u.username = u'.username)) =
      (fun u : User => decide (u.username = name)) := by
    funext u; rw [hu']
  obtain ⟨j, hj1, hj2⟩ :=
    find?_set_of_find? (fun u => decide (u.username = name)) u'
      (by simp [hu']) st.users 0 user hfind
  have hupd : updateUser u' { st with stockPrices := prices' } =
      { st with stockPrices := prices', users := st.users.set (0 + j) u' } := by
    unfold updateUser
    rw [hpred]
    dsimp only
    rw [hj1]
  rw [hupd]
  apply getCurrentUserObject_eq_some.mpr
  exact ⟨name, hm, hname, by simpa using hj2⟩

/-- `updateUser` either leaves the users list unchanged or replaces one
position in it. -/
theorem updateUser_users_cases (u' : User) (st : AppState) :
    (updateUser u' st).users = st.users ∨
    ∃ j, (updateUser u' st).users = st.users.set j u' := by
  unfold updateUser
  rcases hidx : st.users.findIdx? (fun u => u.username = u'.username) with _ | j
  · rw [hidx]
    exact Or.inl rfl
  · rw [hidx]
    exact Or.inr ⟨j, rfl⟩

/-- `updateUser` preserves "every stored balance is non-negative" when the
written record's balance is non-negative. -/
theorem updateUser_coins_nonneg {st : AppState} {u' : User}
    (hcoins : ∀ u ∈ st.users, 0 ≤ u.coins) (hu' : 0 ≤ u'.coins) :
    ∀ u ∈ (updateUser u' st).users, 0 ≤ u.coins := by
  intro u hu
  rcases updateUser_users_cases u' st with h | ⟨j, h⟩
  · rw [h] at hu; exact hcoins u hu
  · rw [h] at hu
    rcases List.mem_or_eq_of_mem_set hu with h2 | h2
    · exact hcoins u h2
    · rw [h2]; exact hu'

/-- A successful case-insensitive `find?` is also the first case-sensitive
match for the found record's own username. -/
theorem find?_username_of_find?_toLower :
    ∀ (l : List User) (input : String) (u : User),
      l.find? (fun v => toLowerCase v.username = toLowerCase input) = some u →
      l.find? (fun v => v.username = u.username) = some u := by
  intro l
  induction l with
  | nil => intro input u h; exact absurd h (by simp)
  | cons x xs ih =>
    intro input u h
    rw [List.find?_cons] at h
    by_cases hx : toLowerCase x.username = toLowerCase input
    · rw [List.find?_cons]
      have : some x = some u := by simpa [hx] using h
      have hxu : x = u := by simpa using this
      simp [hxu]
    · have h' : xs.find? (fun v => toLowerCase v.username = toLowerCase input) = some u := by
        simpa [hx] using h
      have hu : toLowerCase u.username = toLowerCase input := by
        have := List.find?_some h'
        simpa using this
      have hxne : ¬ x.username = u.username := by
        intro he
        exact hx (by rw [he, hu])
      have hd : decide (x.username = u.username) = false := by simp [hxne]
      simp only [List.find?_cons, hd]
      exact ih input u h'

/-! ### Claim theorems -/

/-- C4: every operation that reports failure — register, login, buy
(`investCoins`), sell (`sellInvestment`) — leaves the persisted state (the
users list, the price table and the session marker) exactly as it was. -/
theorem failed_operations_leave_state_unchanged
    (hash : String → String) (username : String) (age : Option ℚ)
    (password : String) (symbol : String) (amount : Option ℚ)
    (rand : ℚ) (index : ℤ) (st : AppState) :
    ((registerUser hash username age password st).1 = false →
      (registerUser hash username age password st).2 = st) ∧
    ((loginUser hash username password st).1 = false →
      (loginUser hash username password st).2 = st) ∧
    ((investCoins symbol amount st).1 = none →
      (investCoins symbol amount st).2 = st) ∧
    ((sellInvestment rand index st).1 = none →
      (sellInvestment rand index st).2 = st) := by
  refine ⟨?_, ?_, ?_, ?_⟩
  · unfold registerUser
    by_cases h1 : username = ""
    · rw [if_pos h1]; intro _; trivial
    · rw [if_neg h1]
      by_cases h2 : ageInvalid age
      · rw [if_pos h2]; intro _; trivial
      · rw [if_neg h2]
        by_cases h3 : (st.users.find?
            (fun u => toLowerCase u.username = toLowerCase username)).isSome
        · rw [if_pos h3]; intro _; trivial
        · rw [if_neg h3]; intro hf; simp at hf
  · unfold loginUser
    rcases hfind : st.users.find? (fun u => toLowerCase u.username = toLowerCase username)
      with _ | user
    · simp only [hfind]; intro _; trivial
    · simp only [hfind]
      by_cases hh : hash password ≠ user.passwordHash
      · rw [if_pos hh]; intro _; trivial
      · rw [if_neg hh]; intro hf; simp at hf
  · unfold investCoins
    rcases hcu : getCurrentUserObject st with _ | user
    · simp only [hcu]; intro _; trivial
    · simp only [hcu]
      cases amount with
      | none => intro _; trivial
      | some amt =>
        dsimp only
        by_cases h1 : amt ≤ 0
        · rw [if_pos h1]; intro _; trivial
        · rw [if_neg h1]
          by_cases h2 : amt > user.coins
          · rw [if_pos h2]; intro _; trivial
          · rw [if_neg h2]; intro hf; simp at hf
  · unfold sellInvestment
    rcases hcu : getCurrentUserObject st with _ | user
    · simp only [hcu]; intro _; trivial
    · simp only [hcu]
      by_cases h1 : index < 0 ∨ (user.portfolio.length : ℤ) ≤ index
      · rw [if_pos h1]; intro _; trivial
      · rw [if_neg h1]; intro hf; simp at hf

/-- Witness for C4 at a concrete empty state: all four operations fail and
return the state they were given. -/
theorem failed_operations_leave_state_unchanged_witness :
    (registerUser (fun s => s) "" none "pw"
      ⟨[], fun _ => none, none⟩).2 = ⟨[], fun _ => none, none⟩ ∧
    (loginUser (fun s => s) "alice" "pw"
      ⟨[], fun _ => none, none⟩).2 = ⟨[], fun _ => none, none⟩ ∧
    (investCoins "AAPL" (some 5)
      ⟨[], fun _ => none, none⟩).2 = ⟨[], fun _ => none, none⟩ ∧
    (sellInvestment 0 0
      ⟨[], fun _ => none, none⟩).2 = ⟨[], fun _ => none, none⟩ := by
  obtain ⟨h1, h2, h3, h4⟩ := failed_operations_leave_state_unchanged
    (fun s => s) "" none "pw" "AAPL" (some 5) 0 0 ⟨[], fun _ => none, none⟩
  exact ⟨h1 rfl, h2 rfl, h3 rfl, h4 rfl⟩

/-- C6: with a logged-in user, selling an out-of-range index (negative or
at least the portfolio length) reports failure and leaves the whole state
(holdings, balance, price table) unchanged. -/
theorem sellOne_out_of_range_noop (rand : ℚ) (index : ℤ) (st : AppState) (user : User)
    (h : getCurrentUserObject st = some user)
    (hidx : index < 0 ∨ (user.portfolio.length : ℤ) ≤ index) :
    sellInvestment rand index st = (none, st) := by
  unfold sellInvestment
  simp only [h]
  rw [if_pos hidx]

/-- Witness for C6: selling index 0 from an empty portfolio fails and
keeps the state. -/
theorem sellOne_out_of_range_noop_witness :
    sellInvestment 0 0
        ⟨[⟨"a", some 20, "h", 100, []⟩], fun _ => none, some "a"⟩ =
      (none, ⟨[⟨"a", some 20, "h", 100, []⟩], fun _ => none, some "a"⟩) :=
  sellOne_out_of_range_noop 0 0 _ ⟨"a", some 20, "h", 100, []⟩
    (by decide) (by decide)

/-- C8: when a stored record matches the requested username
case-insensitively, registration fails (whatever the casing of the
request) and the stored state, every user record included, is unchanged. -/
theorem register_duplicate_username_fails (hash : String → String) (username : String)
    (age : Option ℚ) (password : String) (st : AppState)
    (h : ∃ u ∈ st.users, toLowerCase u.username = toLowerCase username) :
    (registerUser hash username age password st).1 = false ∧
    (registerUser hash username age password st).2 = st := by
  have hs : (st.users.find? (fun u => toLowerCase u.username = toLowerCase username)).isSome := by
    rw [List.find?_isSome]
    obtain ⟨u, hu, he⟩ := h
    exact ⟨u, hu, by simpa using he⟩
  unfold registerUser
  by_cases h1 : username = ""
  · rw [if_pos h1]; exact ⟨rfl, rfl⟩
  · rw [if_neg h1]
    by_cases h2 : ageInvalid age
    · rw [if_pos h2]; exact ⟨rfl, rfl⟩
    · rw [if_neg h2, if_pos hs]; exact ⟨rfl, rfl⟩

/-- Witness for C8: registering "ALICE" when "Alice" is stored fails and
keeps the state. -/
theorem register_duplicate_username_fails_witness :
    (registerUser (fun s => s) "ALICE" (some 20) "pw"
        ⟨[⟨"Alice", some 30, "h", 100, []⟩], fun _ => none, none⟩).1 = false ∧
    (registerUser (fun s => s) "ALICE" (some 20) "pw"
        ⟨[⟨"Alice", some 30, "h", 100, []⟩], fun _ => none, none⟩).2 =
      ⟨[⟨"Alice", some 30, "h", 100, []⟩], fun _ => none, none⟩ :=
  register_duplicate_username_fails (fun s => s) "ALICE" (some 20) "pw" _
    ⟨⟨"Alice", some 30, "h", 100, []⟩, by decide, by decide⟩

/-- C9: buy and sell both fail and leave the state unchanged when no
session marker is set or the marker names no stored user, even though the
spec states a logged-in precondition only for `revalueAll`. -/
theorem buy_sell_require_login (symbol : String) (amount : Option ℚ) (rand : ℚ)
    (index : ℤ) (st : AppState)
    (h : st.currentUser = none ∨ ∀ u ∈ st.users, st.currentUser ≠ some u.username) :
    investCoins symbol amount st = (none, st) ∧
    sellInvestment rand index st = (none, st) := by
  have hnone : getCurrentUserObject st = none := by
    unfold getCurrentUserObject
    cases hm : st.currentUser with
    | none => rfl
    | some name =>
      dsimp only
      rcases h with h | h
      · rw [hm] at h; exact absurd h (by simp)
      · by_cases hname : name = ""
        · rw [if_pos hname]
        · rw [if_neg hname]
          rw [List.find?_eq_none]
          intro u hu
          simp only [decide_eq_true_eq]
          intro he
          exact h u hu (by rw [hm, he])
  constructor
  · unfold investCoins; rw [hnone]
  · unfold sellInvestment; rw [hnone]

/-- Witness for C9: with a dangling session marker, buy and sell fail and
keep the state. -/
theorem buy_sell_require_login_witness :
    investCoins "AAPL" (some 5)
        ⟨[⟨"bob", some 20, "h", 100, []⟩], fun _ => none, some "gone"⟩ =
      (none, ⟨[⟨"bob", some 20, "h", 100, []⟩], fun _ => none, some "gone"⟩) ∧
    sellInvestment 0 0
        ⟨[⟨"bob", some 20, "h", 100, []⟩], fun _ => none, some "gone"⟩ =
      (none, ⟨[⟨"bob", some 20, "h", 100, []⟩], fun _ => none, some "gone"⟩) :=
  buy_sell_require_login "AAPL" (some 5) 0 0 _ (Or.inr (by decide))

/-- C5: for any random draw `rand ∈ [0,1)` (variation
`rand/10 − 1/20 ∈ [−5%, 5%)`) and a non-negatively-priced table,
`updateStockPrice` returns a value ≥ 1, the unclamped intermediate
`price·(1+variation)` lies within `[price·0.95, price·1.05]`, and the
returned value is exactly what is persisted for the symbol. -/
theorem updatePrice_bounds (rand : ℚ) (symbol : String) (prices : Prices)
    (hr0 : 0 ≤ rand) (hr1 : rand < 1)
    (hpos : ∀ q, prices symbol = some q → 0 ≤ q) :
    1 ≤ (updateStockPrice rand symbol prices).1 ∧
    currentOrSeededPrice symbol prices * (95 / 100) ≤
      currentOrSeededPrice symbol prices * (1 + (rand * (1 / 10) - 1 / 20)) ∧
    currentOrSeededPrice symbol prices * (1 + (rand * (1 / 10) - 1 / 20)) ≤
      currentOrSeededPrice symbol prices * (105 / 100) ∧
    (updateStockPrice rand symbol prices).2 symbol =
      some (updateStockPrice rand symbol prices).1 := by
  have hp : 0 ≤ currentOrSeededPrice symbol prices := by
    unfold currentOrSeededPrice
    by_cases h0 : (prices symbol).getD 0 = 0
    · rw [if_pos h0]; exact le_of_lt (basePrice_pos symbol)
    · rw [if_neg h0]
      cases hq : prices symbol with
      | none => rw [hq] at h0; simp at h0
      | some q => simpa using hpos q hq
  refine ⟨updateStockPrice_fst_ge_one rand symbol prices, ?_, ?_, ?_⟩
  · exact mul_le_mul_of_nonneg_left (by linarith) hp
  · exact mul_le_mul_of_nonneg_left (by linarith) hp
  · unfold updateStockPrice
    simp

/-- Witness for C5 at `rand = 1/2` on an empty price table with symbol
"AAPL". -/
theorem updatePrice_bounds_witness :
    1 ≤ (updateStockPrice (1 / 2) "AAPL" (fun _ => none)).1 ∧
    currentOrSeededPrice "AAPL" (fun _ => none) * (95 / 100) ≤
      currentOrSeededPrice "AAPL" (fun _ => none) *
        (1 + ((1 / 2 : ℚ) * (1 / 10) - 1 / 20)) ∧
    currentOrSeededPrice "AAPL" (fun _ => none) *
        (1 + ((1 / 2 : ℚ) * (1 / 10) - 1 / 20)) ≤
      currentOrSeededPrice "AAPL" (fun _ => none) * (105 / 100) ∧
    (updateStockPrice (1 / 2) "AAPL" (fun _ => none)).2 "AAPL" =
      some (updateStockPrice (1 / 2) "AAPL" (fun _ => none)).1 :=
  updatePrice_bounds (1 / 2) "AAPL" (fun _ => none) (by norm_num) (by norm_num)
    (by intro q h; cases h)

/-- C10: a successful login through a case-insensitive username match sets
the session marker to the stored record's exact username (not the string
as typed), and `getCurrentUserObject` — which compares case-sensitively —
then resolves to that stored record. -/
theorem login_sets_marker_to_stored_username (hash : String → String)
    (input password : String) (st : AppState) (u : User)
    (hfind : st.users.find? (fun v => toLowerCase v.username = toLowerCase input)
      = some u)
    (hne : ¬ u.username = "")
    (hsucc : (loginUser hash input password st).1 = true) :
    (loginUser hash input password st).2.currentUser = some u.username ∧
    getCurrentUserObject (loginUser hash input password st).2 = some u := by
  unfold loginUser at hsucc ⊢
  simp only [hfind] at hsucc ⊢
  by_cases hh : hash password ≠ u.passwordHash
  · rw [if_pos hh] at hsucc; simp at hsucc
  · rw [if_neg hh]
    constructor
    · rfl
    · apply getCurrentUserObject_eq_some.mpr
      exact ⟨u.username, rfl, hne,
        find?_username_of_find?_toLower st.users input u hfind⟩

/-- Witness for C10: logging in as "ALICE" when "Alice" is stored sets the
marker to "Alice" and resolves the current user to that record. -/
theorem login_sets_marker_to_stored_username_witness :
    (loginUser (fun s => s) "ALICE" "pw"
        ⟨[⟨"Alice", some 30, "pw", 100, []⟩],
          fun _ => none, none⟩).2.currentUser = some "Alice" ∧
    getCurrentUserObject (loginUser (fun s => s) "ALICE" "pw"
        ⟨[⟨"Alice", some 30, "pw", 100, []⟩], fun _ => none, none⟩).2 =
      some ⟨"Alice", some 30, "pw", 100, []⟩ :=
  login_sets_marker_to_stored_username (fun s => s) "ALICE" "pw" _
    ⟨"Alice", some 30, "pw", 100, []⟩ (by decide) (by decide) (by decide)

/-- C2: `revalueAll` on a logged-in user with one holding
`⟨s, q, p, i⟩` rebases the holding to the freshly drawn price `p′`
(referencePrice = `p′`, investedAmount = `q·p′`) and moves the balance to
`round2 (balance + i·(p′−p)/p)`. -/
theorem revalueAll_single_holding (rands : ℕ → ℚ) (st : AppState) (user : User)
    (s : String) (q p i : ℚ)
    (huser : getCurrentUserObject st = some user)
    (hport : user.portfolio = [⟨s, q, p, i⟩])
    (_hp : p ≠ 0) :
    (updatePortfolio rands st).1 = true ∧
    getCurrentUserObject (updatePortfolio rands st).2 =
      some { user with
             coins := round2 (user.coins +
               i * (((updateStockPrice (rands 0) s st.stockPrices).1 - p) / p)),
             portfolio := [⟨s, q, (updateStockPrice (rands 0) s st.stockPrices).1,
               q * (updateStockPrice (rands 0) s st.stockPrices).1⟩] } := by
  have hloop : updatePortfolioLoop rands 0 user.coins st.stockPrices user.portfolio =
      ([⟨s, q, (updateStockPrice (rands 0) s st.stockPrices).1,
          q * (updateStockPrice (rands 0) s st.stockPrices).1⟩],
        round2 (user.coins +
          i * (((updateStockPrice (rands 0) s st.stockPrices).1 - p) / p)),
        (updateStockPrice (rands 0) s st.stockPrices).2) := by
    rw [hport]
    rfl
  have hmain : updatePortfolio rands st =
      (true, updateUser
        { user with
          coins := round2 (user.coins +
            i * (((updateStockPrice (rands 0) s st.stockPrices).1 - p) / p)),
          portfolio := [⟨s, q, (updateStockPrice (rands 0) s st.stockPrices).1,
            q * (updateStockPrice (rands 0) s st.stockPrices).1⟩] }
        { st with stockPrices := (updateStockPrice (rands 0) s st.stockPrices).2 }) := by
    unfold updatePortfolio
    simp only [huser]
    rw [hloop]
  rw [hmain]
  exact ⟨rfl, getCurrentUserObject_updateUser _ huser rfl⟩

/-- Witness for C2: one "AAPL" holding at reference price 150 with a draw
of 1/2 (variation 0) keeps the price at 150 and the balance at 100. -/
theorem revalueAll_single_holding_witness :
    (updatePortfolio (fun _ => 1 / 2)
        ⟨[⟨"a", some 20, "h", 100, [⟨"AAPL", 2, 150, 300⟩]⟩],
          fun t => if t = "AAPL" then some 150 else none, some "a"⟩).1 = true ∧
    getCurrentUserObject (updatePortfolio (fun _ => 1 / 2)
        ⟨[⟨"a", some 20, "h", 100, [⟨"AAPL", 2, 150, 300⟩]⟩],
          fun t => if t = "AAPL" then some 150 else none, some "a"⟩).2 =
      some ⟨"a", some 20, "h", 100, [⟨"AAPL", 2, 150, 300⟩]⟩ := by
  have h := revalueAll_single_holding (fun _ => 1 / 2)
    ⟨[⟨"a", some 20, "h", 100, [⟨"AAPL", 2, 150, 300⟩]⟩],
      fun t => if t = "AAPL" then some 150 else none, some "a"⟩
    ⟨"a", some 20, "h", 100, [⟨"AAPL", 2, 150, 300⟩]⟩
    "AAPL" 2 150 300 (by decide) (by decide) (by norm_num)
  exact ⟨h.1, h.2.trans
    (by norm_num [updateStockPrice, currentOrSeededPrice, round2])⟩

/-- C3: with a logged-in user and `0 < a ≤ balance`, buy succeeds
reporting the oracle price and `quantity = a / price`, the post-buy
balance is `round2 (balance − a)`, and exactly one new holding
`⟨symbol, a/price, price, a⟩` is appended at the end. -/
theorem buy_valid_amount (symbol : String) (a : ℚ) (st : AppState) (user : User)
    (huser : getCurrentUserObject st = some user)
    (ha : 0 < a) (hle : a ≤ user.coins) :
    (investCoins symbol (some a) st).1 =
      some ((getStockPrice symbol st.stockPrices).1,
        a / (getStockPrice symbol st.stockPrices).1) ∧
    getCurrentUserObject (investCoins symbol (some a) st).2 =
      some { user with
             coins := round2 (user.coins - a),
             portfolio := user.portfolio ++
               [⟨symbol, a / (getStockPrice symbol st.stockPrices).1,
                  (getStockPrice symbol st.stockPrices).1, a⟩] } := by
  have hc1 : ¬ a ≤ 0 := not_le.mpr ha
  have hc2 : ¬ a > user.coins := not_lt.mpr hle
  have hmain : investCoins symbol (some a) st =
      (some ((getStockPrice symbol st.stockPrices).1,
          a / (getStockPrice symbol st.stockPrices).1),
        updateUser
          { user with
            coins := round2 (user.coins - a),
            portfolio := user.portfolio ++
              [⟨symbol, a / (getStockPrice symbol st.stockPrices).1,
                 (getStockPrice symbol st.stockPrices).1, a⟩] }
          { st with stockPrices := (getStockPrice symbol st.stockPrices).2 }) := by
    unfold investCoins
    simp only [huser]
    rw [if_neg hc1, if_neg hc2]
  rw [hmain]
  exact ⟨rfl, getCurrentUserObject_updateUser _ huser rfl⟩

/-- Witness for C3: buying 50 of "AAPL" (seeded price 150) from a balance
of 100 leaves balance 50 and appends the holding `⟨AAPL, 1/3, 150, 50⟩`. -/
theorem buy_valid_amount_witness :
    (investCoins "AAPL" (some 50)
        ⟨[⟨"a", some 20, "h", 100, []⟩], fun _ => none, some "a"⟩).1 =
      some (150, 1 / 3) ∧
    getCurrentUserObject (investCoins "AAPL" (some 50)
        ⟨[⟨"a", some 20, "h", 100, []⟩], fun _ => none, some "a"⟩).2 =
      some ⟨"a", some 20, "h", 50, [⟨"AAPL", 1 / 3, 150, 50⟩]⟩ := by
  have h := buy_valid_amount "AAPL" 50
    ⟨[⟨"a", some 20, "h", 100, []⟩], fun _ => none, some "a"⟩
    ⟨"a", some 20, "h", 100, []⟩ (by decide) (by norm_num) (by norm_num)
  exact ⟨h.1.trans (by norm_num [getStockPrice, basePrice]),
    h.2.trans (by norm_num [getStockPrice, basePrice, round2])⟩

/-- C7: with a logged-in user and a valid index, sell succeeds with
proceeds = quantity × freshly updated price, credits the balance to
`round2 (balance + proceeds)`, and removes exactly the holding at that
index (later holdings shift down by one, earlier ones unchanged). -/
theorem sellOne_valid_index (rand : ℚ) (index : ℤ) (st : AppState) (user : User)
    (huser : getCurrentUserObject st = some user)
    (h0 : 0 ≤ index) (hlen : index < (user.portfolio.length : ℤ)) :
    (sellInvestment rand index st).1 =
      some ((user.portfolio.getD index.toNat defaultInvestment).quantity *
        (updateStockPrice rand
          (user.portfolio.getD index.toNat defaultInvestment).symbol
          st.stockPrices).1) ∧
    getCurrentUserObject (sellInvestment rand index st).2 =
      some { user with
             coins := round2 (user.coins +
               (user.portfolio.getD index.toNat defaultInvestment).quantity *
               (updateStockPrice rand
                 (user.portfolio.getD index.toNat defaultInvestment).symbol
                 st.stockPrices).1),
             portfolio := user.portfolio.eraseIdx index.toNat } ∧
    user.portfolio.eraseIdx index.toNat =
      user.portfolio.take index.toNat ++ user.portfolio.drop (index.toNat + 1) := by
  have hcond : ¬ (index < 0 ∨ (user.portfolio.length : ℤ) ≤ index) := by
    push_neg
    exact ⟨h0, hlen⟩
  have hmain : sellInvestment rand index st =
      (some ((user.portfolio.getD index.toNat defaultInvestment).quantity *
          (updateStockPrice rand
            (user.portfolio.getD index.toNat defaultInvestment).symbol
            st.stockPrices).1),
        updateUser
          { user with
            coins := round2 (user.coins +
              (user.portfolio.getD index.toNat defaultInvestment).quantity *
              (updateStockPrice rand
                (user.portfolio.getD index.toNat defaultInvestment).symbol
                st.stockPrices).1),
            portfolio := user.portfolio.eraseIdx index.toNat }
          { st with stockPrices :=
              (updateStockPrice rand
                (user.portfolio.getD index.toNat defaultInvestment).symbol
                st.stockPrices).2 }) := by
    unfold sellInvestment
    simp only [huser]
    rw [if_neg hcond]
  rw [hmain]
  exact ⟨rfl, getCurrentUserObject_updateUser _ huser rfl,
    List.eraseIdx_eq_take_drop_succ _ _⟩

/-- Witness for C7: selling the only holding (2 shares of "AAPL" at an
updated price of 150, draw 1/2) yields proceeds 300, balance 400 and an
empty portfolio. -/
theorem sellOne_valid_index_witness :
    (sellInvestment (1 / 2) 0
        ⟨[⟨"a", some 20, "h", 100, [⟨"AAPL", 2, 150, 300⟩]⟩],
          fun t => if t = "AAPL" then some 150 else none, some "a"⟩).1 =
      some 300 ∧
    getCurrentUserObject (sellInvestment (1 / 2) 0
        ⟨[⟨"a", some 20, "h", 100, [⟨"AAPL", 2, 150, 300⟩]⟩],
          fun t => if t = "AAPL" then some 150 else none, some "a"⟩).2 =
      some ⟨"a", some 20, "h", 400, []⟩ := by
  have h := sellOne_valid_index (1 / 2) 0
    ⟨[⟨"a", some 20, "h", 100, [⟨"AAPL", 2, 150, 300⟩]⟩],
      fun t => if t = "AAPL" then some 150 else none, some "a"⟩
    ⟨"a", some 20, "h", 100, [⟨"AAPL", 2, 150, 300⟩]⟩
    (by decide) (by norm_num) (by decide)
  exact ⟨h.1.trans
      (by norm_num [updateStockPrice, currentOrSeededPrice, round2]),
    h.2.1.trans
      (by norm_num [updateStockPrice, currentOrSeededPrice, round2])⟩

/-! ### C1: the balance invariant -/

/-- A reachable-shape state refuting C1: balance 0 and one "AAPL" holding
with invested amount 150 (e.g. right after investing the whole balance). -/
def lossState : AppState :=
  ⟨[⟨"a", some 20, "h", 0, [⟨"AAPL", 1, 150, 150⟩]⟩],
    fun t => if t = "AAPL" then some 150 else none, some "a"⟩

/-- C1 counterexample: `updatePortfolio` (revalue-all) reports success on
`lossState` under the minimal draw (variation −5%) yet leaves the current
user's balance at −7.5 < 0, refuting the claimed invariant for
revalue-all. -/
theorem revalueAll_negative_balance_cex :
    (updatePortfolio (fun _ => 0) lossState).1 = true ∧
    (getCurrentUserObject
        (updatePortfolio (fun _ => 0) lossState).2).map User.coins =
      some (-(15 / 2)) ∧
    (-(15 / 2) : ℚ) < 0 := by
  have hcu : getCurrentUserObject lossState =
      some ⟨"a", some 20, "h", 0, [⟨"AAPL", 1, 150, 150⟩]⟩ := by decide
  have hmain : updatePortfolio (fun _ => 0) lossState =
      (true, updateUser
        ⟨"a", some 20, "h",
          round2 (0 + 150 *
            (((updateStockPrice 0 "AAPL" lossState.stockPrices).1 - 150) / 150)),
          [⟨"AAPL", 1, (updateStockPrice 0 "AAPL" lossState.stockPrices).1,
            1 * (updateStockPrice 0 "AAPL" lossState.stockPrices).1⟩]⟩
        { lossState with
          stockPrices := (updateStockPrice 0 "AAPL" lossState.stockPrices).2 }) := by
    unfold updatePortfolio
    simp only [hcu]
    rfl
  have hget := @getCurrentUserObject_updateUser lossState
    ⟨"a", some 20, "h", 0, [⟨"AAPL", 1, 150, 150⟩]⟩
    ⟨"a", some 20, "h",
      round2 (0 + 150 *
        (((updateStockPrice 0 "AAPL" lossState.stockPrices).1 - 150) / 150)),
      [⟨"AAPL", 1, (updateStockPrice 0 "AAPL" lossState.stockPrices).1,
        1 * (updateStockPrice 0 "AAPL" lossState.stockPrices).1⟩]⟩
    ((updateStockPrice 0 "AAPL" lossState.stockPrices).2) hcu rfl
  refine ⟨by rw [hmain], ?_, by norm_num⟩
  rw [hmain]
  dsimp only
  rw [hget]
  norm_num [updateStockPrice, currentOrSeededPrice, round2, lossState]

/-- C1 (amended): the balance stays ≥ 0 after register, buy and sell-one
(given non-negative stored balances and holding quantities), but not after
revalue-all, which can drive it negative (see the counterexample). -/
theorem register_buy_sell_preserve_nonneg_balance
    (hash : String → String) (username : String) (age : Option ℚ)
    (password : String) (symbol : String) (amount : Option ℚ)
    (rand : ℚ) (index : ℤ) (st : AppState)
    (hcoins : ∀ u ∈ st.users, 0 ≤ u.coins)
    (hqty : ∀ u ∈ st.users, ∀ inv ∈ u.portfolio, 0 ≤ inv.quantity) :
    (∀ u ∈ (registerUser hash username age password st).2.users, 0 ≤ u.coins) ∧
    (∀ u ∈ (investCoins symbol amount st).2.users, 0 ≤ u.coins) ∧
    (∀ u ∈ (sellInvestment rand index st).2.users, 0 ≤ u.coins) := by
  refine ⟨?_, ?_, ?_⟩
  · unfold registerUser
    by_cases h1 : username = ""
    · rw [if_pos h1]; exact hcoins
    · rw [if_neg h1]
      by_cases h2 : ageInvalid age
      · rw [if_pos h2]; exact hcoins
      · rw [if_neg h2]
        by_cases h3 : (st.users.find?
            (fun u => toLowerCase u.username = toLowerCase username)).isSome
        · rw [if_pos h3]; exact hcoins
        · rw [if_neg h3]
          intro u hu
          rcases List.mem_append.mp hu with h | h
          · exact hcoins u h
          · have : u = ⟨username, age, hash password, 100000, []⟩ := by simpa using h
            rw [this]
            norm_num
  · unfold investCoins
    rcases hcu : getCurrentUserObject st with _ | user
    · simp only [hcu]; exact hcoins
    · simp only [hcu]
      cases amount with
      | none => exact hcoins
      | some amt =>
        dsimp only
        by_cases h1 : amt ≤ 0
        · rw [if_pos h1]; exact hcoins
        · rw [if_neg h1]
          by_cases h2 : amt > user.coins
          · rw [if_pos h2]; exact hcoins
          · rw [if_neg h2]
            have hnn : 0 ≤ round2 (user.coins - amt) :=
              round2_nonneg (by linarith [not_lt.mp h2])
            exact updateUser_coins_nonneg hcoins hnn
  · unfold sellInvestment
    rcases hcu : getCurrentUserObject st with _ | user
    · simp only [hcu]; exact hcoins
    · simp only [hcu]
      by_cases h1 : index < 0 ∨ (user.portfolio.length : ℤ) ≤ index
      · rw [if_pos h1]; exact hcoins
      · rw [if_neg h1]
        push_neg at h1
        have hmemu : user ∈ st.users := getCurrentUserObject_mem hcu
        have hi : index.toNat < user.portfolio.length := by omega
        have hinv : user.portfolio.getD index.toNat defaultInvestment ∈
            user.portfolio := by
          rw [List.getD_eq_getElem user.portfolio defaultInvestment hi]
          exact List.getElem_mem hi
        have hq : 0 ≤ (user.portfolio.getD index.toNat defaultInvestment).quantity :=
          hqty user hmemu _ hinv
        have hpr : (1 : ℚ) ≤ (updateStockPrice rand
            (user.portfolio.getD index.toNat defaultInvestment).symbol
            st.stockPrices).1 :=
          updateStockPrice_fst_ge_one _ _ _
        have hnn : 0 ≤ round2 (user.coins +
            (user.portfolio.getD index.toNat defaultInvestment).quantity *
            (updateStockPrice rand
              (user.portfolio.getD index.toNat defaultInvestment).symbol
              st.stockPrices).1) := by
          apply round2_nonneg
          have := hcoins user hmemu
          nlinarith
        exact updateUser_coins_nonneg hcoins hnn

/-- Witness for the amended C1: registering into an empty store yields the
new user's starting balance 100000 ≥ 0. -/
theorem register_buy_sell_preserve_nonneg_balance_witness :
    (0 : ℚ) ≤ (User.mk "x" (some 20) "pw" 100000 []).coins :=
  (register_buy_sell_preserve_nonneg_balance (fun s => s) "x" (some 20) "pw"
      "AAPL" none 0 0 ⟨[], fun _ => none, none⟩
      (by simp) (by simp)).1
    ⟨"x", some 20, "pw", 100000, []⟩ (by decide)

end SimplyInvest
